import Mathlib

/-
Shallow embedding of the website backend's template engine.

Sources embedded here:
 - backend/tokenizer.go : the lexer for code blocks (Token, Tokenizer, NextToken)
 - backend/template.go  : directive evaluation (renderVar, renderContent,
   renderChooseRandomTopLevelFileFromStaticPath), template compilation
   (NewTemplateFromString), rendering (Template.Render), and the header/body
   scanner of NewTemplateInputFromString
 - backend/json.go      : removeCommentsFromJson

Modelling conventions:
 - Go strings / rune slices are modelled as `List Char`.
 - Go `int` fields used for positions are modelled as `Int` (the error path of
   NewTemplateFromString subtracts 1 from a column).
 - Go maps are modelled as association lists with first-match lookup
   (a Go map has unique keys, so first-match lookup is faithful).
 - The file system collaborator `os.ReadDir` is modelled as a function
   `List Char → Option (List (List Char))` from a directory path to its entry
   names (`none` models a listing error).  `rand.Intn n` is modelled by an
   explicit parameter `pick`, to be thought of as the value the generator
   returned, so theorems quantify over `pick < n`.
 - Go stdlib `path.Clean` / `path.Join` / `path.Ext` are modelled by
   executable functions with the documented lexical semantics.
 - The only loop whose termination is not structural (the argument-list loop
   of parseFunctionArgs) takes an explicit fuel; every iteration of the Go
   loop consumes at least one rune, so the fuel `runes.length + 1` supplied by
   parseFunctionArgs can never run out.  Running out of fuel is a distinct
   error value, so no theorem about a `.ok` or source-error result is
   affected by it.
-/

namespace Backend

/-- Source location, template.go lines 19-23.  Row and column are 1-based. -/
structure Location where
  path : List Char
  row : Int
  column : Int
deriving DecidableEq

/-- Cursor advancement shared by the tokenizer (tokenizer.go lines 51-64) and
the template scanners (template.go lines 273-283, 370-380): a newline
increments the row and resets the column to 1, anything else increments the
column. -/
def advanceLoc (loc : Location) (c : Char) : Location :=
  if c = '\n' then { loc with row := loc.row + 1, column := 1 }
  else { loc with column := loc.column + 1 }

/-- Token kinds, tokenizer.go lines 11-17. -/
inductive TokenKind where
  | word
  | string
  | singleChar
deriving DecidableEq

/-- Token, tokenizer.go lines 19-23. -/
structure Token where
  kind : TokenKind
  value : List Char
  location : Location
deriving DecidableEq

/-- The error values produced by the tokenizer and the template engine
(tokenizer.go lines 25-26, template.go lines 12-17).  Each carries the
location (and, where the Go error formats it, the token value) that the Go
code interpolates into the error message.  `outOfFuel` is the artefact of the
fuelled argument-list loop and corresponds to no Go error. -/
inductive TErr where
  | unexpectedToken (loc : Location) (value : List Char)
  | unexpectedEof (loc : Location)
  | variableNotFound (loc : Location) (value : List Char)
  | incorrectArgsCount (loc : Location) (value : List Char)
  | internalFunctionExecutionError (loc : Location) (value : List Char)
  | unterminatedCodeBlock (loc : Location)
  | unterminatedString (loc : Location)
  | outOfFuel
deriving DecidableEq

/-- The whitespace classification used by the tokenizer: `unicode.IsSpace`
restricted to the Latin-1 range (tokenizer.go line 69). -/
def goIsSpace (c : Char) : Bool :=
  c == ' ' || c == '\t' || c == '\n' || c == '\x0b' || c == '\x0c' || c == '\r' ||
    c == '\x85' || c == '\xa0'

/-- The single-character token set, tokenizer.go line 40. -/
def isSingleCharTok (c : Char) : Bool :=
  c == '(' || c == ')' || c == '{' || c == '}' || c == ','

/-- Tokenizer state, tokenizer.go lines 28-33.  The cursor is represented by
dropping consumed runes from the front of `runes`. -/
structure Tokenizer where
  runes : List Char
  location : Location
deriving DecidableEq

/-- NewTokenizer, tokenizer.go lines 35-42. -/
def NewTokenizer (code : List Char) (location : Location) : Tokenizer :=
  ⟨code, location⟩

/-- The skipWhitespace loop of tokenizer.go lines 66-74, on the rune list and
location. -/
def skipWhitespaceAux : List Char → Location → List Char × Location
  | [], loc => ([], loc)
  | c :: rest, loc =>
    if goIsSpace c then skipWhitespaceAux rest (advanceLoc loc c)
    else (c :: rest, loc)

/-- Tokenizer.skipWhitespace, tokenizer.go lines 66-74. -/
def skipWhitespace (t : Tokenizer) : Tokenizer :=
  ⟨(skipWhitespaceAux t.runes t.location).1, (skipWhitespaceAux t.runes t.location).2⟩

/-- Resolution of one string escape sequence, tokenizer.go lines 117-130:
n, t, r, quote and backslash map to their escaped character, any other
character keeps the backslash. -/
def escPiece (e : Char) : List Char :=
  if e = 'n' then ['\n']
  else if e = 't' then ['\t']
  else if e = 'r' then ['\r']
  else if e = '"' then ['"']
  else if e = '\\' then ['\\']
  else ['\\', e]

/-- The string-literal scanning loop of tokenizer.go lines 99-137, entered
after the opening quote has been consumed.  Returns the resolved value, the
remaining runes and the location after the closing quote. -/
def scanStringLoop : List Char → Location → List Char →
    Except TErr (List Char × List Char × Location)
  | [], loc, _ => .error (.unterminatedString loc)
  | '\\' :: [], loc, _ => .error (.unterminatedString (advanceLoc loc '\\'))
  | '\\' :: e :: rest, loc, acc =>
    scanStringLoop rest (advanceLoc (advanceLoc loc '\\') e) (acc ++ escPiece e)
  | c :: rest, loc, acc =>
    if c = '"' then .ok (acc, rest, advanceLoc loc c)
    else scanStringLoop rest (advanceLoc loc c) (acc ++ [c])

/-- The word scanning loop of tokenizer.go lines 141-149: consume greedily
until whitespace, a single-character token or a quote. -/
def scanWordLoop : List Char → Location → List Char → List Char × List Char × Location
  | [], loc, acc => (acc, [], loc)
  | c :: rest, loc, acc =>
    if goIsSpace c || isSingleCharTok c || c == '"' then (acc, c :: rest, loc)
    else scanWordLoop rest (advanceLoc loc c) (acc ++ [c])

/-- Tokenizer.NextToken, tokenizer.go lines 80-151.  `none` is the "no more
tokens" sentinel (Go returns a nil token and nil error). -/
def NextToken (t : Tokenizer) : Except TErr (Option Token × Tokenizer) :=
  match skipWhitespace t with
  | ⟨[], loc⟩ => .ok (none, ⟨[], loc⟩)
  | ⟨c :: rest, loc⟩ =>
    if isSingleCharTok c then
      .ok (some ⟨.singleChar, [c], loc⟩, ⟨rest, advanceLoc loc c⟩)
    else if c = '"' then
      match scanStringLoop rest (advanceLoc loc c) [] with
      | .error e => .error e
      | .ok (v, rest2, loc2) => .ok (some ⟨.string, v, loc⟩, ⟨rest2, loc2⟩)
    else
      match scanWordLoop (c :: rest) loc [] with
      | (v, rest2, loc2) => .ok (some ⟨.word, v, loc⟩, ⟨rest2, loc2⟩)

/-- Token.IsSingleChar, tokenizer.go lines 161-163. -/
def tokenIsSingleChar (tok : Token) (r : Char) : Bool :=
  tok.kind = TokenKind.singleChar && tok.value.head? = some r

/-- mustNextToken, template.go lines 86-95: a missing next token becomes an
"unexpected end of file" error at the code block's location. -/
def mustNextToken (t : Tokenizer) (loc : Location) : Except TErr (Token × Tokenizer) :=
  match NextToken t with
  | .error e => .error e
  | .ok (none, _) => .error (.unexpectedEof loc)
  | .ok (some tok, t') => .ok (tok, t')

/-- The argument-list loop of parseFunctionArgs, template.go lines 120-140,
entered with the first argument already parsed.  The fuel only bounds the
number of iterations; each Go iteration consumes at least one rune. -/
def parseFunctionArgsLoop : Nat → Tokenizer → Location → List Token →
    Except TErr (List Token × Tokenizer)
  | 0, _, _, _ => .error .outOfFuel
  | fuel + 1, t, loc, args =>
    match mustNextToken t loc with
    | .error e => .error e
    | .ok (tok, t') =>
      if tokenIsSingleChar tok ')' then .ok (args, t')
      else if !tokenIsSingleChar tok ',' then .error (.unexpectedToken tok.location tok.value)
      else
        match mustNextToken t' loc with
        | .error e => .error e
        | .ok (tok2, t'') =>
          if tokenIsSingleChar tok2 ')' || tokenIsSingleChar tok2 ',' then
            .error (.unexpectedToken tok2.location tok2.value)
          else parseFunctionArgsLoop fuel t'' loc (args ++ [tok2])

/-- parseFunctionArgs, template.go lines 97-141: a parenthesised,
comma-separated token list. -/
def parseFunctionArgs (t : Tokenizer) (loc : Location) :
    Except TErr (List Token × Tokenizer) :=
  match mustNextToken t loc with
  | .error e => .error e
  | .ok (tok, t') =>
    if !tokenIsSingleChar tok '(' then .error (.unexpectedToken tok.location tok.value)
    else
      match mustNextToken t' loc with
      | .error e => .error e
      | .ok (tok2, t'') =>
        if tokenIsSingleChar tok2 ')' then .ok ([], t'')
        else if tokenIsSingleChar tok2 ',' then .error (.unexpectedToken tok2.location tok2.value)
        else parseFunctionArgsLoop (t''.runes.length + 1) t'' loc [tok2]

/-- TemplateContext, template.go lines 25-29.  `Variables` models the Go map
as an association list with unique keys. -/
structure TemplateContext where
  StaticDir : List Char
  Content : List Char
  Variables : List (List Char × List Char)
deriving DecidableEq

/-- First-match lookup in the variable mapping (Go map indexing). -/
def lookupVar : List (List Char × List Char) → List Char → Option (List Char)
  | [], _ => none
  | (k, v) :: rest, key => if k = key then some v else lookupVar rest key

/-- TemplateCodePortion, template.go lines 143-147. -/
structure TemplateCodePortion where
  ctx : TemplateContext
  location : Location
  code : List Char
deriving DecidableEq

/-- TemplateCodePortion.renderVar, template.go lines 149-169. -/
def renderVar (p : TemplateCodePortion) (t : Tokenizer) (funcTok : Token) :
    Except TErr (List Char) :=
  match parseFunctionArgs t p.location with
  | .error e => .error e
  | .ok (args, _) =>
    match args with
    | [a] =>
      if a.kind ≠ TokenKind.string then .error (.unexpectedToken a.location a.value)
      else
        match lookupVar p.ctx.Variables a.value with
        | none => .error (.variableNotFound a.location a.value)
        | some v => .ok v
    | _ => .error (.incorrectArgsCount funcTok.location funcTok.value)

/-- TemplateCodePortion.renderContent, template.go lines 171-181. -/
def renderContent (p : TemplateCodePortion) (t : Tokenizer) (funcTok : Token) :
    Except TErr (List Char) :=
  match parseFunctionArgs t p.location with
  | .error e => .error e
  | .ok ([], _) => .ok p.ctx.Content
  | .ok (_, _) => .error (.incorrectArgsCount funcTok.location funcTok.value)

/-- Split a path on slash characters, the segment view used to model Go's
lexical `path.Clean`. -/
def splitSeg : List Char → List (List Char)
  | [] => [[]]
  | c :: rest =>
    if c = '/' then [] :: splitSeg rest
    else
      match splitSeg rest with
      | s :: ss => (c :: s) :: ss
      | [] => [[c]]

/-- The segment processing of Go `path.Clean` (lexical cleaning): empty and
dot segments are dropped, a dot-dot segment pops a previous real segment,
stays when the stack top is itself a dot-dot outside a rooted path, starts a
leading dot-dot run for relative paths and is dropped at the root of rooted
paths.  The stack is kept reversed. -/
def cleanProcess (rooted : Bool) : List (List Char) → List (List Char) → List (List Char)
  | [], stack => stack.reverse
  | seg :: rest, stack =>
    if seg = [] ∨ seg = ['.'] then cleanProcess rooted rest stack
    else if seg = ['.', '.'] then
      match stack with
      | top :: stack' =>
        if top = ['.', '.'] then cleanProcess rooted rest (seg :: top :: stack')
        else cleanProcess rooted rest stack'
      | [] =>
        if rooted then cleanProcess rooted rest []
        else cleanProcess rooted rest [seg]
    else cleanProcess rooted rest (seg :: stack)

/-- Join a list of segments with slashes. -/
def joinSlash : List (List Char) → List Char
  | [] => []
  | [x] => x
  | x :: xs => x ++ '/' :: joinSlash xs

/-- Model of Go stdlib `path.Clean` (used by template.go lines 209 and 229):
lexically remove duplicate slashes, dot segments and resolvable dot-dot
segments; the empty path and a path cleaning to nothing become ".". -/
def goPathClean (p : List Char) : List Char :=
  if p = [] then ['.']
  else
    let rooted := p.head? = some '/'
    let stack := cleanProcess (decide rooted) (splitSeg p) []
    let out := (if rooted then ['/'] else []) ++ joinSlash stack
    if out = [] then ['.'] else out

/-- Model of Go stdlib `path.Join` (used by template.go lines 209 and 229):
skip leading empty elements, join the rest with slashes and clean the result;
if every element is empty the result is empty and is not cleaned. -/
def goPathJoin (elems : List (List Char)) : List Char :=
  let buf := elems.foldl
    (fun buf e =>
      if buf ≠ [] ∨ e ≠ [] then (if buf ≠ [] then buf ++ ['/'] else buf) ++ e
      else buf)
    []
  if elems.all (fun e => e.isEmpty) then [] else goPathClean buf

/-- The backwards scan of Go stdlib `path.Ext` from the last character to the
last slash: the first dot found ends the extension. -/
def extAux : List Char → List Char → List Char
  | [], _ => []
  | c :: rev, suffix =>
    if c = '/' then []
    else if c = '.' then c :: suffix
    else extAux rev (c :: suffix)

/-- Model of Go stdlib `path.Ext` (used by template.go line 216): the suffix
of the final path element starting at its final dot, or empty when the final
element has no dot. -/
def goPathExt (p : List Char) : List Char :=
  extAux p.reverse []

/-- The eligible-entry filter of template.go lines 214-220: an entry is
skipped exactly when the ignored extension is non-empty and equals the
entry's extension. -/
def eligibleFiles (entries : List (List Char)) (ext : List Char) : List (List Char) :=
  entries.filter (fun e => if ext ≠ [] ∧ goPathExt e = ext then false else true)

/-- TemplateCodePortion.renderChooseRandomTopLevelFileFromStaticPath,
template.go lines 183-230.  `fs` models `os.ReadDir` (`none` is a listing
error) and `pick` models the value returned by `rand.Intn files.length`. -/
def renderChooseRandomTopLevelFileFromStaticPath
    (fs : List Char → Option (List (List Char))) (pick : Nat)
    (p : TemplateCodePortion) (t : Tokenizer) (funcTok : Token) :
    Except TErr (List Char) :=
  match parseFunctionArgs t p.location with
  | .error e => .error e
  | .ok (args, _) =>
    if args.length < 1 ∨ args.length > 2 then
      .error (.incorrectArgsCount funcTok.location funcTok.value)
    else
      match args with
      | [] => .error (.incorrectArgsCount funcTok.location funcTok.value)
      | dirPathToken :: restArgs =>
        if dirPathToken.kind ≠ TokenKind.string then
          .error (.unexpectedToken dirPathToken.location dirPathToken.value)
        else
          let dirPath := dirPathToken.value
          let extE : Except TErr (List Char) :=
            match restArgs with
            | [] => .ok []
            | extToken :: _ =>
              if extToken.kind ≠ TokenKind.string then
                .error (.unexpectedToken extToken.location extToken.value)
              else .ok extToken.value
          match extE with
          | .error e => .error e
          | .ok ext =>
            match fs (goPathJoin [p.ctx.StaticDir, goPathClean dirPath]) with
            | none => .error (.internalFunctionExecutionError funcTok.location funcTok.value)
            | some dirEntries =>
              let files := eligibleFiles dirEntries ext
              if files.length < 1 then
                .error (.internalFunctionExecutionError funcTok.location funcTok.value)
              else
                .ok (goPathJoin [['/'], p.ctx.StaticDir, dirPath, files.getD pick []])

/-- TemplateCodePortion.Render, template.go lines 232-257: tokenize the code
text from the portion's location and dispatch on the first token. -/
def TemplateCodePortion.Render (fs : List Char → Option (List (List Char)))
    (pick : Nat) (p : TemplateCodePortion) : Except TErr (List Char) :=
  match NextToken (NewTokenizer p.code p.location) with
  | .error e => .error e
  | .ok (none, _) => .error (.unexpectedEof p.location)
  | .ok (some tok, t1) =>
    if tok.kind = TokenKind.word ∧ tok.value = ("var").toList then
      renderVar p t1 tok
    else if tok.kind = TokenKind.word ∧ tok.value = ("content").toList then
      renderContent p t1 tok
    else if tok.kind = TokenKind.word ∧
        tok.value = ("chooseRandomTopLevelFileFromStaticPath").toList then
      renderChooseRandomTopLevelFileFromStaticPath fs pick p t1 tok
    else .error (.unexpectedToken tok.location tok.value)

/-- TemplatePortion, template.go lines 31-41: the tagged union of a literal
text portion and a code portion. -/
inductive TemplatePortion where
  | text (s : List Char)
  | code (p : TemplateCodePortion)
deriving DecidableEq

/-- TemplatePortion.Render: a text portion renders to its text
(template.go lines 39-41), a code portion via the directive evaluator. -/
def TemplatePortion.Render (fs : List Char → Option (List (List Char)))
    (pick : Nat) : TemplatePortion → Except TErr (List Char)
  | .text s => .ok s
  | .code p => TemplateCodePortion.Render fs pick p

/-- The rendering loop of Template.Render, template.go lines 345-357:
concatenate the rendered portions in order, aborting at the first error. -/
def RenderPortions (fs : List Char → Option (List (List Char))) (pick : Nat) :
    List TemplatePortion → Except TErr (List Char)
  | [] => .ok []
  | p :: rest =>
    match TemplatePortion.Render fs pick p with
    | .error e => .error e
    | .ok s =>
      match RenderPortions fs pick rest with
      | .error e => .error e
      | .ok s' => .ok (s ++ s')

/-- Template, template.go lines 259-261. -/
structure Template where
  portions : List TemplatePortion
deriving DecidableEq

/-- Template.Render, template.go lines 345-357. -/
def Template.Render (fs : List Char → Option (List (List Char))) (pick : Nat)
    (t : Template) : Except TErr (List Char) :=
  RenderPortions fs pick t.portions

/-- The loop state of NewTemplateFromString, template.go lines 263-320:
emitted portions, accumulated text, code-mode flag, the recorded code-block
location and the cursor location. -/
structure CompOut where
  portions : List TemplatePortion
  acc : List Char
  codeMode : Bool
  codeLoc : Location
  loc : Location
deriving DecidableEq

/-- The initial loop state of NewTemplateFromString: no portions, empty
accumulator, text mode, zero-valued code location (Go's `Location{}`). -/
def initComp (loc0 : Location) : CompOut :=
  ⟨[], [], false, ⟨[], 0, 0⟩, loc0⟩

/-- The scanning loop of NewTemplateFromString, template.go lines 285-320.
A backslash consumes the next character into the accumulator (a trailing
backslash is itself accumulated and the loop breaks); an unescaped brace
toggles code mode, flushing a text portion on entry and emitting a code
portion bound to the recorded location on exit. -/
def compileLoop (ctx : TemplateContext) : List Char → CompOut → CompOut
  | [], st => st
  | c :: rest, st =>
    if c = '\\' then
      match rest with
      | [] => { st with acc := st.acc ++ ['\\'], loc := advanceLoc st.loc '\\' }
      | e :: rest2 =>
        compileLoop ctx rest2
          { st with acc := st.acc ++ [e], loc := advanceLoc (advanceLoc st.loc '\\') e }
    else if c = '{' ∧ st.codeMode = false then
      compileLoop ctx rest
        { portions := st.portions ++ [.text st.acc]
          acc := []
          codeMode := true
          codeLoc := advanceLoc st.loc c
          loc := advanceLoc st.loc c }
    else if c = '}' ∧ st.codeMode = true then
      compileLoop ctx rest
        { st with
          portions := st.portions ++ [.code ⟨ctx, st.codeLoc, st.acc⟩]
          acc := []
          codeMode := false
          loc := advanceLoc st.loc c }
    else compileLoop ctx rest { st with acc := st.acc ++ [c], loc := advanceLoc st.loc c }

/-- NewTemplateFromString, template.go lines 263-335: run the scanning loop,
fail with "unterminated code block" (reported one column before the recorded
code location, i.e. at the opening brace) if the scan ends in code mode, and
flush any remaining text.  The portion list of the resulting Template is
returned. -/
def NewTemplateFromString (initialLocation : Location) (textContent : List Char)
    (codeCtx : TemplateContext) : Except TErr (List TemplatePortion) :=
  match compileLoop codeCtx textContent (initComp initialLocation) with
  | st =>
    if st.codeMode then
      .error (.unterminatedCodeBlock ⟨st.codeLoc.path, st.codeLoc.row, st.codeLoc.column - 1⟩)
    else if st.acc ≠ [] then .ok (st.portions ++ [.text st.acc])
    else .ok st.portions

/-- Escape every character of a text with a backslash. -/
def escapeEach : List Char → List Char
  | [] => []
  | c :: rest => '\\' :: c :: escapeEach rest

/-- A text contains no unescaped opening brace, under the compiler's escape
rule (a backslash consumes the next character; a trailing backslash escapes
nothing). -/
def noCode : List Char → Bool
  | [] => true
  | c :: rest =>
    if c = '\\' then
      match rest with
      | [] => true
      | _ :: rest2 => noCode rest2
    else if c = '{' then false
    else noCode rest

/-- A text contains no unescaped closing brace, under the compiler's escape
rule. -/
def noClose : List Char → Bool
  | [] => true
  | c :: rest =>
    if c = '\\' then
      match rest with
      | [] => true
      | _ :: rest2 => noClose rest2
    else if c = '}' then false
    else noClose rest

/-- Every backslash of the text consumes a following character inside the
text (no trailing lone backslash), so scanning the text never ends
mid-escape. -/
def completesEscapes : List Char → Bool
  | [] => true
  | c :: rest =>
    if c = '\\' then
      match rest with
      | [] => false
      | _ :: rest2 => completesEscapes rest2
    else completesEscapes rest

/-- A text without backslashes or braces: inside a code block every such
character is accumulated verbatim. -/
def noSpecials (xs : List Char) : Bool :=
  xs.all (fun c => if c = '\\' ∨ c = '{' ∨ c = '}' then false else true)

/-- Escape resolution on a whole text: drop each escaping backslash and keep
the following character; keep a trailing backslash. -/
def unescape : List Char → List Char
  | [] => []
  | c :: rest =>
    if c = '\\' then
      match rest with
      | [] => ['\\']
      | e :: rest2 => e :: unescape rest2
    else c :: unescape rest

/-- A plain path component: non-empty, without slashes, and not a dot or
dot-dot segment, so lexical path cleaning keeps it verbatim. -/
def simpleName (nm : List Char) : Prop :=
  nm ≠ [] ∧ '/' ∉ nm ∧ nm ≠ ['.'] ∧ nm ≠ ['.', '.']

instance (nm : List Char) : Decidable (simpleName nm) := by
  unfold simpleName
  infer_instance

/-- The state of the header/body scanner of NewTemplateInputFromString,
template.go lines 382-416: inside-string flag, transient escape flag and the
running brace balance. -/
structure ScanSt where
  inString : Bool
  escaped : Bool
  balance : Int
deriving DecidableEq

/-- One character step of the header/body scanner, template.go lines 390-408:
the escape flag absorbs exactly one character; inside a string a backslash
sets the escape flag and a quote leaves the string; outside a string a quote
enters a string and braces move the balance. -/
def scanStep (s : ScanSt) (c : Char) : ScanSt :=
  if s.escaped then { s with escaped := false }
  else if s.inString then
    if c = '\\' then { s with escaped := true }
    else if c = '"' then { s with inString := false }
    else s
  else
    if c = '"' then { s with inString := true }
    else if c = '{' then { s with balance := s.balance + 1 }
    else if c = '}' then { s with balance := s.balance - 1 }
    else s

/-- The scanner's terminal condition, template.go line 413: not inside a
string and brace balance zero, checked after each consumed character. -/
def scanBreak (s : ScanSt) : Bool :=
  !s.inString && s.balance = 0

/-- The header/body splitting loop of NewTemplateInputFromString, template.go
lines 387-416: consume characters into the header until the terminal
condition first holds; the rest of the input is the body.  (The loop also
advances a Location cursor, which does not influence the split.) -/
def splitHeaderLoop (st : ScanSt) : List Char → List Char × List Char
  | [] => ([], [])
  | c :: rest =>
    if scanBreak (scanStep st c) then ([c], rest)
    else
      ((c :: (splitHeaderLoop (scanStep st c) rest).1),
        (splitHeaderLoop (scanStep st c) rest).2)

/-- The initial scanner state: outside strings, not escaped, balance zero. -/
def scanInit : ScanSt := ⟨false, false, 0⟩

/-- The header/body split of NewTemplateInputFromString, template.go lines
382-416. -/
def splitHeader (cs : List Char) : List Char × List Char :=
  splitHeaderLoop scanInit cs

/-- Errors of removeCommentsFromJson, json.go line 44, plus the fuel artefact
(the Go loop advances the index on every path, so the fuel `length + 1`
supplied by removeCommentsFromJson can never run out). -/
inductive JsonErr where
  | unclosedComment
  | outOfFuel
deriving DecidableEq

/-- The line-comment skip of json.go lines 33-37: drop characters up to but
not including the next newline or carriage return. -/
def skipLineComment : List Char → List Char
  | [] => []
  | c :: rest => if c = '\n' ∨ c = '\r' then c :: rest else skipLineComment rest

/-- The block-comment skip of json.go lines 41-51: drop characters through
the next star-slash pair; `none` when fewer than two characters remain before
one is found. -/
def skipBlockComment : List Char → Option (List Char)
  | [] => none
  | [_] => none
  | c :: d :: rest =>
    if c = '*' ∧ d = '/' then some rest
    else skipBlockComment (d :: rest)

/-- The main loop of removeCommentsFromJson, json.go lines 16-58.  Per
character: an unescaped quote toggles the in-string flag; a backslash inside
a string toggles the escape flag (so pairs of backslashes cancel) and any
other character clears it; outside a string a slash followed by another slash
or a star skips a comment; every other character is copied.  Go's
`i+1 < len(jsonRunes)` guard and `jsonRunes[i+1]` read are rendered as
`rest.head? = some _`; exhausted input yields the copied output so far (the
catch-all arm), a non-empty input with zero fuel the fuel artefact. -/
def removeCommentsLoop : Nat → List Char → Bool → Bool → Except JsonErr (List Char)
  | fuel + 1, c :: rest, inString, escaped =>
    let inString' := if c = '"' ∧ escaped = false then !inString else inString
    let escaped' := if c = '\\' ∧ inString' = true then !escaped else false
    if inString' = false ∧ c = '/' ∧ rest.head? = some '/' then
      removeCommentsLoop fuel (skipLineComment rest.tail) inString' escaped'
    else if inString' = false ∧ c = '/' ∧ rest.head? = some '*' then
      match skipBlockComment rest.tail with
      | none => .error .unclosedComment
      | some rest3 => removeCommentsLoop fuel rest3 inString' escaped'
    else
      match removeCommentsLoop fuel rest inString' escaped' with
      | .error e => .error e
      | .ok out => .ok (c :: out)
  | _, l, _, _ => if l = [] then .ok [] else .error .outOfFuel

/-- removeCommentsFromJson, json.go lines 9-61. -/
def removeCommentsFromJson (json : List Char) : Except JsonErr (List Char) :=
  removeCommentsLoop (json.length + 1) json false false

/-
Concrete fixtures used by the witnesses below.
-/

/-- A file system with no readable directories. -/
def wFsNone : List Char → Option (List (List Char)) := fun _ => none

/-- A starting location for witness inputs: anonymous source, row 1, column 1. -/
def wLoc : Location := ⟨[], 1, 1⟩

/-- A code portion invoking `var` on a bound variable. -/
def c1P : TemplateCodePortion :=
  ⟨⟨[], [], [(("x").toList, ("VAL").toList)]⟩, wLoc, ("var(\"x\")").toList⟩

/-- A code portion invoking `content` with an empty argument list. -/
def c2P : TemplateCodePortion :=
  ⟨⟨[], ("CC").toList, []⟩, wLoc, ("content()").toList⟩

/-- A file system whose only readable directory is `static/img`, holding one
extensionless entry. -/
def c3FsA : List Char → Option (List (List Char)) :=
  fun k => if k = ("static/img").toList then some [("README").toList] else none

/-- A code portion invoking the random-choice directive with the empty string
as the extension to ignore. -/
def c3PA : TemplateCodePortion :=
  ⟨⟨("static").toList, [], []⟩, wLoc,
    ("chooseRandomTopLevelFileFromStaticPath(\"img\",\"\")").toList⟩

/-- A file system whose only readable directory is `static/img`, holding one
`.png` entry and one `.txt` entry. -/
def c3FsB : List Char → Option (List (List Char)) :=
  fun k =>
    if k = ("static/img").toList then some [("a.png").toList, ("b.txt").toList]
    else none

/-- A code portion invoking the random-choice directive ignoring `.txt`
entries. -/
def c3PB : TemplateCodePortion :=
  ⟨⟨("static").toList, [], []⟩, wLoc,
    ("chooseRandomTopLevelFileFromStaticPath(\"img\",\".txt\")").toList⟩

/-- An empty rendering context for compiler witnesses. -/
def wCtx : TemplateContext := ⟨[], [], []⟩

/-- A text whose only brace is escaped. -/
def c7S : List Char := 'a' :: '\\' :: '{' :: 'b' :: []

/-- A page-data text whose header contains a closing brace inside a quoted
string, followed by a body. -/
def c8S : List Char := '{' :: '"' :: 'x' :: '}' :: '"' :: '}' :: 'B' :: []

/-- The opening of a JSON header up to the start of the `title` value:
brace, quoted key `title`, colon, opening value quote — ten characters. -/
def jsonPre : List Char := ("\x7b\"title\":\"").toList

/-- The closing of that JSON header: value quote and closing brace. -/
def jsonPost : List Char := ("\"\x7d").toList

end Backend

namespace Backend

/-- Under the hypotheses that the first token of a code portion is the word
`var`, the dispatch of TemplateCodePortion.Render reaches renderVar. -/
theorem render_dispatch_var (fs : List Char → Option (List (List Char))) (pick : Nat)
    (p : TemplateCodePortion) (tok : Token) (t1 : Tokenizer)
    (h1 : NextToken (NewTokenizer p.code p.location) = .ok (some tok, t1))
    (h2 : tok.kind = TokenKind.word) (h3 : tok.value = ("var").toList) :
    TemplateCodePortion.Render fs pick p = renderVar p t1 tok := by
  unfold TemplateCodePortion.Render
  rw [h1]
  exact if_pos ⟨h2, h3⟩

/-- Claim C1: for a well-formed code block invoking `var`, once the
parenthesised argument list has parsed, an argument count other than one
fails with the incorrect-argument-count error on the `var` token, a single
non-string argument fails with the unexpected-token error on it, a string
argument naming an absent variable fails with the variable-not-found error,
and a string argument naming a bound variable renders exactly to the mapped
value, untouched. -/
theorem claim_c1 (fs : List Char → Option (List (List Char))) (pick : Nat)
    (p : TemplateCodePortion) (tok : Token) (t1 : Tokenizer)
    (args : List Token) (t2 : Tokenizer) (a : Token) (v : List Char)
    (h1 : NextToken (NewTokenizer p.code p.location) = .ok (some tok, t1))
    (h2 : tok.kind = TokenKind.word) (h3 : tok.value = ("var").toList)
    (h4 : parseFunctionArgs t1 p.location = .ok (args, t2)) :
    (args.length ≠ 1 →
      TemplateCodePortion.Render fs pick p =
        .error (.incorrectArgsCount tok.location tok.value))
    ∧ (args = [a] → a.kind ≠ TokenKind.string →
      TemplateCodePortion.Render fs pick p =
        .error (.unexpectedToken a.location a.value))
    ∧ (args = [a] → a.kind = TokenKind.string →
      lookupVar p.ctx.Variables a.value = none →
      TemplateCodePortion.Render fs pick p =
        .error (.variableNotFound a.location a.value))
    ∧ (args = [a] → a.kind = TokenKind.string →
      lookupVar p.ctx.Variables a.value = some v →
      TemplateCodePortion.Render fs pick p = .ok v) := by
  rw [render_dispatch_var fs pick p tok t1 h1 h2 h3]
  unfold renderVar
  rw [h4]
  refine ⟨?_, ?_, ?_, ?_⟩
  · intro hlen
    match args, hlen with
    | [], _ => rfl
    | x :: y :: rest, _ => rfl
    | [x], h => exact absurd rfl h
  · rintro rfl hkind
    exact if_pos hkind
  · rintro rfl hkind hlook
    exact (if_neg (fun h => h hkind)).trans (by rw [hlook])
  · rintro rfl hkind hlook
    exact (if_neg (fun h => h hkind)).trans (by rw [hlook])

/-- Concrete instantiation of claim C1: rendering `var("x")` with `x` bound
to `VAL` yields `VAL`. -/
theorem claim_c1_witness :
    TemplateCodePortion.Render wFsNone 0 c1P = .ok (("VAL").toList) :=
  (claim_c1 wFsNone 0 c1P ⟨.word, ("var").toList, wLoc⟩
      ⟨("(\"x\")").toList, ⟨[], 1, 4⟩⟩
      [⟨.string, ("x").toList, ⟨[], 1, 5⟩⟩] ⟨[], ⟨[], 1, 9⟩⟩
      ⟨.string, ("x").toList, ⟨[], 1, 5⟩⟩ (("VAL").toList)
      rfl rfl rfl rfl).2.2.2 rfl rfl rfl

/-- Under the hypotheses that the first token of a code portion is the word
`content`, the dispatch of TemplateCodePortion.Render reaches
renderContent. -/
theorem render_dispatch_content (fs : List Char → Option (List (List Char))) (pick : Nat)
    (p : TemplateCodePortion) (tok : Token) (t1 : Tokenizer)
    (h1 : NextToken (NewTokenizer p.code p.location) = .ok (some tok, t1))
    (h2 : tok.kind = TokenKind.word) (h3 : tok.value = ("content").toList) :
    TemplateCodePortion.Render fs pick p = renderContent p t1 tok := by
  unfold TemplateCodePortion.Render
  rw [h1]
  exact (if_neg (fun hc => absurd (h3.symm.trans hc.2) (by decide))).trans
    (if_pos ⟨h2, h3⟩)

/-- Claim C2: for a code block invoking `content` whose parenthesised
argument list parses, a non-empty argument list fails with the
incorrect-argument-count error on the `content` token, and an empty one
renders exactly to the context's content string. -/
theorem claim_c2 (fs : List Char → Option (List (List Char))) (pick : Nat)
    (p : TemplateCodePortion) (tok : Token) (t1 : Tokenizer)
    (args : List Token) (t2 : Tokenizer)
    (h1 : NextToken (NewTokenizer p.code p.location) = .ok (some tok, t1))
    (h2 : tok.kind = TokenKind.word) (h3 : tok.value = ("content").toList)
    (h4 : parseFunctionArgs t1 p.location = .ok (args, t2)) :
    (args ≠ [] →
      TemplateCodePortion.Render fs pick p =
        .error (.incorrectArgsCount tok.location tok.value))
    ∧ (args = [] → TemplateCodePortion.Render fs pick p = .ok p.ctx.Content) := by
  rw [render_dispatch_content fs pick p tok t1 h1 h2 h3]
  unfold renderContent
  rw [h4]
  constructor
  · intro hne
    match args, hne with
    | x :: rest, _ => rfl
    | [], h => exact absurd rfl h
  · rintro rfl
    rfl

/-- Concrete instantiation of claim C2: rendering `content()` with content
string `CC` yields `CC`. -/
theorem claim_c2_witness :
    TemplateCodePortion.Render wFsNone 0 c2P = .ok (("CC").toList) :=
  (claim_c2 wFsNone 0 c2P ⟨.word, ("content").toList, wLoc⟩
      ⟨("()").toList, ⟨[], 1, 8⟩⟩ [] ⟨[], ⟨[], 1, 10⟩⟩
      rfl rfl rfl rfl).2 rfl

/-- Splitting a slash-free text yields that text as its only segment. -/
theorem splitSeg_noSlash (a : List Char) (h : '/' ∉ a) : splitSeg a = [a] := by
  induction a with
  | nil => rfl
  | cons c a' ih =>
    have hc : c ≠ '/' := fun hc => h (hc ▸ List.mem_cons_self c a')
    have ha' : '/' ∉ a' := fun hm => h (List.mem_cons_of_mem c hm)
    rw [splitSeg, if_neg hc, ih ha']

/-- Splitting distributes over a slash that follows a slash-free text. -/
theorem splitSeg_append (a r : List Char) (h : '/' ∉ a) :
    splitSeg (a ++ '/' :: r) = a :: splitSeg r := by
  induction a with
  | nil => rw [List.nil_append, splitSeg, if_pos rfl]
  | cons c a' ih =>
    have hc : c ≠ '/' := fun hc => h (hc ▸ List.mem_cons_self c a')
    have ha' : '/' ∉ a' := fun hm => h (List.mem_cons_of_mem c hm)
    rw [List.cons_append, splitSeg, if_neg hc, ih ha']

/-- Cleaning keeps a rooted path made of three plain components verbatim. -/
theorem goPathClean_root3 (a b c : List Char)
    (ha : simpleName a) (hb : simpleName b) (hc : simpleName c) :
    goPathClean (('/' :: '/' :: a) ++ '/' :: b ++ '/' :: c) =
      '/' :: a ++ '/' :: b ++ '/' :: c := by
  have hsegs : splitSeg (('/' :: '/' :: a) ++ '/' :: b ++ '/' :: c) =
      [[], [], a, b, c] := by
    have h1 : ('/' :: '/' :: a) ++ '/' :: b ++ '/' :: c =
        '/' :: '/' :: (a ++ '/' :: (b ++ '/' :: c)) := by simp
    rw [h1, splitSeg, if_pos rfl, splitSeg, if_pos rfl,
      splitSeg_append a _ ha.2.1, splitSeg_append b _ hb.2.1,
      splitSeg_noSlash c hc.2.1]
  unfold goPathClean
  rw [if_neg (by simp)]
  rw [hsegs]
  have hhead : (('/' :: '/' :: a) ++ '/' :: b ++ '/' :: c).head? = some '/' := rfl
  simp only [hhead]
  have hproc : cleanProcess true [[], [], a, b, c] [] = [a, b, c] := by
    rw [cleanProcess, if_pos (Or.inl rfl), cleanProcess, if_pos (Or.inl rfl),
      cleanProcess, if_neg (by simp [ha.1, ha.2.2.1]), if_neg ha.2.2.2,
      cleanProcess, if_neg (by simp [hb.1, hb.2.2.1]), if_neg hb.2.2.2,
      cleanProcess, if_neg (by simp [hc.1, hc.2.2.1]), if_neg hc.2.2.2,
      cleanProcess]
    rfl
  simp only [decide_True, hproc, if_pos rfl]
  rw [if_neg (by simp [joinSlash])]
  simp [joinSlash]

/-- Joining a root slash with three plain components is plain
concatenation. -/
theorem goPathJoin_simple (a b c : List Char)
    (ha : simpleName a) (hb : simpleName b) (hc : simpleName c) :
    goPathJoin [['/'], a, b, c] = '/' :: a ++ '/' :: b ++ '/' :: c := by
  unfold goPathJoin
  rw [if_neg (by simp)]
  have hbuf : List.foldl
      (fun buf e =>
        if buf ≠ [] ∨ e ≠ [] then (if buf ≠ [] then buf ++ ['/'] else buf) ++ e
        else buf)
      [] [['/'], a, b, c] = ('/' :: '/' :: a) ++ '/' :: b ++ '/' :: c := by
    simp
  rw [hbuf, goPathClean_root3 a b c ha hb hc]

/-- Under the hypotheses that the first token of a code portion is the word
`chooseRandomTopLevelFileFromStaticPath`, the dispatch of
TemplateCodePortion.Render reaches the random-choice directive. -/
theorem render_dispatch_choose (fs : List Char → Option (List (List Char))) (pick : Nat)
    (p : TemplateCodePortion) (tok : Token) (t1 : Tokenizer)
    (h1 : NextToken (NewTokenizer p.code p.location) = .ok (some tok, t1))
    (h2 : tok.kind = TokenKind.word)
    (h3 : tok.value = ("chooseRandomTopLevelFileFromStaticPath").toList) :
    TemplateCodePortion.Render fs pick p =
      renderChooseRandomTopLevelFileFromStaticPath fs pick p t1 tok := by
  unfold TemplateCodePortion.Render
  rw [h1]
  exact (if_neg (fun hc => absurd (h3.symm.trans hc.2) (by decide))).trans
    ((if_neg (fun hc => absurd (h3.symm.trans hc.2) (by decide))).trans
      (if_pos ⟨h2, h3⟩))

/-- Claim C3 fails on the code: invoked as
`chooseRandomTopLevelFileFromStaticPath("img", "")` over a directory whose
single entry `README` has the empty extension — equal to the given second
argument — the code excludes nothing and returns the entry's path, while the
claim requires every entry whose extension equals the second argument to be
excluded, which here would leave the eligible set empty and force an
internal-function-execution failure. -/
theorem claim_c3_counterexample :
    TemplateCodePortion.Render c3FsA 0 c3PA = .ok (("/static/img/README").toList)
    ∧ goPathExt (("README").toList) = ([] : List Char) :=
  ⟨rfl, rfl⟩

/-- Claim C3 as amended: for a code block invoking the random-choice
directive whose argument list parses as one or two string literals, an entry
is excluded exactly when the second argument is present and NON-EMPTY and
equals the entry's extension (an empty second argument excludes nothing);
evaluation fails as an internal function execution error exactly when the
directory cannot be listed or the eligible set is empty; any eligible entry
the random pick selects yields the joined path, which for plain path
components is `/<staticDir>/<dirPath>/<chosenName>`, and with exactly one
eligible entry that entry is always chosen. -/
theorem claim_c3_amended
    (fs : List Char → Option (List (List Char))) (pick : Nat)
    (p : TemplateCodePortion) (tok : Token) (t1 : Tokenizer)
    (args : List Token) (t2 : Tokenizer) (d e2 : Token) (ext : List Char)
    (entries : List (List Char)) (nm : List Char)
    (h1 : NextToken (NewTokenizer p.code p.location) = .ok (some tok, t1))
    (h2 : tok.kind = TokenKind.word)
    (h3 : tok.value = ("chooseRandomTopLevelFileFromStaticPath").toList)
    (h4 : parseFunctionArgs t1 p.location = .ok (args, t2))
    (hd : d.kind = TokenKind.string)
    (hargs : args = [d] ∧ ext = [] ∨
      args = [d, e2] ∧ e2.kind = TokenKind.string ∧ ext = e2.value) :
    (nm ∈ entries →
      (nm ∈ eligibleFiles entries ext ↔ ¬(ext ≠ [] ∧ goPathExt nm = ext)))
    ∧ (fs (goPathJoin [p.ctx.StaticDir, goPathClean d.value]) = none →
      TemplateCodePortion.Render fs pick p =
        .error (.internalFunctionExecutionError tok.location tok.value))
    ∧ (fs (goPathJoin [p.ctx.StaticDir, goPathClean d.value]) = some entries →
      eligibleFiles entries ext = [] →
      TemplateCodePortion.Render fs pick p =
        .error (.internalFunctionExecutionError tok.location tok.value))
    ∧ (fs (goPathJoin [p.ctx.StaticDir, goPathClean d.value]) = some entries →
      pick < (eligibleFiles entries ext).length →
      TemplateCodePortion.Render fs pick p =
        .ok (goPathJoin
          [['/'], p.ctx.StaticDir, d.value, (eligibleFiles entries ext).getD pick []]))
    ∧ (fs (goPathJoin [p.ctx.StaticDir, goPathClean d.value]) = some entries →
      eligibleFiles entries ext = [nm] → pick < 1 →
      simpleName p.ctx.StaticDir → simpleName d.value → simpleName nm →
      TemplateCodePortion.Render fs pick p =
        .ok ('/' :: p.ctx.StaticDir ++ '/' :: d.value ++ '/' :: nm)) := by
  have hmemiff : nm ∈ entries →
      (nm ∈ eligibleFiles entries ext ↔ ¬(ext ≠ [] ∧ goPathExt nm = ext)) := by
    intro hmem
    rw [eligibleFiles, List.mem_filter]
    constructor
    · rintro ⟨-, hp⟩ hcond
      rw [if_pos hcond] at hp
      exact Bool.noConfusion hp
    · intro hnot
      exact ⟨hmem, by rw [if_neg hnot]⟩
  rw [render_dispatch_choose fs pick p tok t1 h1 h2 h3]
  unfold renderChooseRandomTopLevelFileFromStaticPath
  rw [h4]
  rcases hargs with ⟨rfl, rfl⟩ | ⟨rfl, he2, rfl⟩
  · refine ⟨hmemiff, ?_, ?_, ?_, ?_⟩
    · intro hfs
      refine (if_neg (by simp)).trans ((if_neg (fun h => h hd)).trans ?_)
      dsimp only
      rw [hfs]
    · intro hfs hempty
      refine (if_neg (by simp)).trans ((if_neg (fun h => h hd)).trans ?_)
      dsimp only
      rw [hfs]
      exact if_pos (by rw [hempty]; decide)
    · intro hfs hpick
      refine (if_neg (by simp)).trans ((if_neg (fun h => h hd)).trans ?_)
      dsimp only
      rw [hfs]
      exact if_neg (by omega)
    · intro hfs hone hpick hsd hdv hnm
      have hp0 : pick = 0 := by omega
      subst hp0
      refine (if_neg (by simp)).trans ((if_neg (fun h => h hd)).trans ?_)
      dsimp only
      rw [hfs]
      refine (if_neg (by rw [hone]; simp)).trans ?_
      rw [hone]
      show Except.ok (goPathJoin [['/'], p.ctx.StaticDir, d.value, nm]) = _
      rw [goPathJoin_simple _ _ _ hsd hdv hnm]
  · refine ⟨hmemiff, ?_, ?_, ?_, ?_⟩
    · intro hfs
      refine (if_neg (by simp)).trans ((if_neg (fun h => h hd)).trans ?_)
      dsimp only
      rw [he2, hfs]
      exact rfl
    · intro hfs hempty
      refine (if_neg (by simp)).trans ((if_neg (fun h => h hd)).trans ?_)
      dsimp only
      rw [he2, hfs]
      exact if_pos (by rw [hempty]; decide)
    · intro hfs hpick
      refine (if_neg (by simp)).trans ((if_neg (fun h => h hd)).trans ?_)
      dsimp only
      rw [he2, hfs]
      exact if_neg (by omega)
    · intro hfs hone hpick hsd hdv hnm
      have hp0 : pick = 0 := by omega
      subst hp0
      refine (if_neg (by simp)).trans ((if_neg (fun h => h hd)).trans ?_)
      dsimp only
      rw [he2, hfs]
      refine (if_neg (by rw [hone]; simp)).trans ?_
      rw [hone]
      show Except.ok (goPathJoin [['/'], p.ctx.StaticDir, d.value, nm]) = _
      rw [goPathJoin_simple _ _ _ hsd hdv hnm]

/-- The compiler loop at a non-backslash character: the three unescaped-brace
cases of template.go lines 298-319. -/
theorem compileLoop_char (ctx : TemplateContext) (c : Char) (rest : List Char)
    (st : CompOut) (hc : c ≠ '\\') :
    compileLoop ctx (c :: rest) st =
      if c = '{' ∧ st.codeMode = false then
        compileLoop ctx rest
          { portions := st.portions ++ [.text st.acc]
            acc := []
            codeMode := true
            codeLoc := advanceLoc st.loc c
            loc := advanceLoc st.loc c }
      else if c = '}' ∧ st.codeMode = true then
        compileLoop ctx rest
          { st with
            portions := st.portions ++ [.code ⟨ctx, st.codeLoc, st.acc⟩]
            acc := []
            codeMode := false
            loc := advanceLoc st.loc c }
      else
        compileLoop ctx rest
          { st with acc := st.acc ++ [c], loc := advanceLoc st.loc c } := by
  rw [compileLoop.eq_def]
  dsimp only
  rw [if_neg hc]

/-- The compiler loop at an escape pair: the escaped character is accumulated
verbatim, template.go lines 288-296. -/
theorem compileLoop_esc (ctx : TemplateContext) (e : Char) (rest : List Char)
    (st : CompOut) :
    compileLoop ctx ('\\' :: e :: rest) st =
      compileLoop ctx rest
        { st with acc := st.acc ++ [e], loc := advanceLoc (advanceLoc st.loc '\\') e } :=
  rfl

/-- The compiler loop consumes an input whose escapes are self-contained and
then the rest: scanning composes. -/
theorem compileLoop_append (ctx : TemplateContext) (xs ys : List Char) (st : CompOut)
    (h : completesEscapes xs = true) :
    compileLoop ctx (xs ++ ys) st = compileLoop ctx ys (compileLoop ctx xs st) := by
  induction xs using completesEscapes.induct generalizing st with
  | case1 => rfl
  | case2 => exact absurd h (by decide)
  | case3 e rest2 ih =>
    simp only [List.cons_append]
    rw [compileLoop_esc, compileLoop_esc]
    exact ih _ h
  | case4 c rest2 hc ih =>
    have h' : completesEscapes rest2 = true := by
      rw [completesEscapes.eq_def] at h
      dsimp only at h
      rwa [if_neg hc] at h
    simp only [List.cons_append]
    rw [compileLoop_char ctx c (rest2 ++ ys) st hc, compileLoop_char ctx c rest2 st hc]
    split_ifs <;> exact ih _ h'

/-- The compiler loop advances its location cursor over every consumed
character. -/
theorem compileLoop_loc (ctx : TemplateContext) (xs : List Char) (st : CompOut) :
    (compileLoop ctx xs st).loc = List.foldl advanceLoc st.loc xs := by
  induction xs using completesEscapes.induct generalizing st with
  | case1 => rfl
  | case2 => rfl
  | case3 e rest2 ih =>
    rw [compileLoop_esc, ih]
    rfl
  | case4 c rest2 hc ih =>
    rw [compileLoop_char ctx c rest2 st hc]
    split_ifs <;> rw [ih] <;> rfl

/-- While in code mode, an input with no unescaped closing brace keeps the
compiler in code mode with the recorded code location untouched. -/
theorem compileLoop_noClose (ctx : TemplateContext) (xs : List Char) (st : CompOut)
    (h : noClose xs = true) (hm : st.codeMode = true) :
    (compileLoop ctx xs st).codeMode = true ∧
      (compileLoop ctx xs st).codeLoc = st.codeLoc := by
  induction xs using noClose.induct generalizing st with
  | case1 => exact ⟨hm, rfl⟩
  | case2 => exact ⟨hm, rfl⟩
  | case3 e rest2 ih =>
    rw [compileLoop_esc]
    exact ih _ h hm
  | case4 rest2 hne =>
    have hf : noClose ('}' :: rest2) = false := by
      rw [noClose.eq_def]
      dsimp only
      rw [if_neg (by decide), if_pos rfl]
    rw [hf] at h
    exact Bool.noConfusion h
  | case5 c rest2 hc hcb ih =>
    have h' : noClose rest2 = true := by
      rw [noClose.eq_def] at h
      dsimp only at h
      rwa [if_neg hc, if_neg hcb] at h
    rw [compileLoop_char ctx c rest2 st hc]
    rw [if_neg (fun hh => by rw [hm] at hh; exact Bool.noConfusion hh.2)]
    rw [if_neg (fun hh => hcb hh.1)]
    exact ih _ h' hm

/-- The compiler loop accumulates a fully escaped text verbatim, one escaped
character at a time, in any mode. -/
theorem compileLoop_escapeEach (ctx : TemplateContext) (s rest : List Char)
    (st : CompOut) :
    compileLoop ctx (escapeEach s ++ rest) st =
      compileLoop ctx rest
        { st with acc := st.acc ++ s
                  loc := List.foldl advanceLoc st.loc (escapeEach s) } := by
  induction s generalizing st with
  | nil => simp [escapeEach]
  | cons c s' ih =>
    simp only [escapeEach, List.cons_append]
    rw [compileLoop_esc, ih]
    congr 1
    simp

/-- The compiler loop accumulates a text without backslashes and braces
verbatim, in any mode. -/
theorem compileLoop_noSpecials (ctx : TemplateContext) (xs rest : List Char)
    (st : CompOut) (h : noSpecials xs = true) :
    compileLoop ctx (xs ++ rest) st =
      compileLoop ctx rest
        { st with acc := st.acc ++ xs
                  loc := List.foldl advanceLoc st.loc xs } := by
  induction xs generalizing st with
  | nil => simp
  | cons c xs' ih =>
    have hsimp : (¬c = '\\' ∧ ¬c = '{' ∧ ¬c = '}') ∧
        ∀ x ∈ xs', ¬x = '\\' ∧ ¬x = '{' ∧ ¬x = '}' := by
      simpa [noSpecials] using h
    have h' : noSpecials xs' = true := by
      simp only [noSpecials, List.all_eq_true]
      intro x hx
      obtain ⟨a1, a2, a3⟩ := hsimp.2 x hx
      rw [if_neg (fun hor => hor.elim a1 (fun o => o.elim a2 a3))]
    simp only [List.cons_append]
    rw [compileLoop_char ctx c (xs' ++ rest) st hsimp.1.1]
    rw [if_neg (fun hh => hsimp.1.2.1 hh.1)]
    rw [if_neg (fun hh => hsimp.1.2.2 hh.1)]
    refine (ih _ h').trans ?_
    congr 1
    simp

/-- While outside code mode, an input with no unescaped opening brace is
accumulated, escapes resolved, without emitting portions or entering code
mode. -/
theorem compileLoop_noCode (ctx : TemplateContext) (xs : List Char) (st : CompOut)
    (h : noCode xs = true) (hm : st.codeMode = false) :
    compileLoop ctx xs st =
      { st with acc := st.acc ++ unescape xs
                loc := List.foldl advanceLoc st.loc xs } := by
  induction xs using noCode.induct generalizing st with
  | case1 => simp [compileLoop, unescape]
  | case2 => rfl
  | case3 e rest2 ih =>
    rw [compileLoop_esc]
    refine (ih { st with acc := st.acc ++ [e], loc := advanceLoc (advanceLoc st.loc '\\') e } h hm).trans ?_
    congr 1
    simp [unescape]
  | case4 rest2 hne =>
    have hf : noCode ('{' :: rest2) = false := by
      rw [noCode.eq_def]
      dsimp only
      rw [if_neg (by decide), if_pos rfl]
    rw [hf] at h
    exact Bool.noConfusion h
  | case5 c rest2 hc hcb ih =>
    have h' : noCode rest2 = true := by
      rw [noCode.eq_def] at h
      dsimp only at h
      rwa [if_neg hc, if_neg hcb] at h
    have hu : unescape (c :: rest2) = c :: unescape rest2 := by
      rw [unescape.eq_def]
      dsimp only
      rw [if_neg hc]
    rw [compileLoop_char ctx c rest2 st hc]
    rw [if_neg (fun hh => hcb hh.1)]
    rw [if_neg (fun hh => by rw [hm] at hh; exact Bool.noConfusion hh.2)]
    refine (ih { st with acc := st.acc ++ [c], loc := advanceLoc st.loc c } h' hm).trans ?_
    rw [hu]
    congr 1
    simp

/-- Claim C4: an input whose escapes are self-contained up to an unescaped
opening brace reached outside code mode, with no unescaped closing brace
after it, fails to compile with an unterminated-code-block error located
exactly at that opening brace (the scanner position after consuming the
prefix). -/
theorem claim_c4 (k : TemplateContext) (l : Location) (pre suf : List Char)
    (h1 : completesEscapes pre = true)
    (h2 : (compileLoop k pre (initComp l)).codeMode = false)
    (h3 : noClose suf = true) :
    NewTemplateFromString l (pre ++ '{' :: suf) k =
      .error (.unterminatedCodeBlock (List.foldl advanceLoc l pre)) := by
  unfold NewTemplateFromString
  rw [compileLoop_append k pre ('{' :: suf) (initComp l) h1]
  rw [compileLoop_char k '{' suf _ (by decide)]
  rw [if_pos (And.intro rfl h2)]
  dsimp only
  obtain ⟨hcm, hcl⟩ :=
    compileLoop_noClose k suf
      { portions := (compileLoop k pre (initComp l)).portions ++
          [.text (compileLoop k pre (initComp l)).acc]
        acc := []
        codeMode := true
        codeLoc := advanceLoc (compileLoop k pre (initComp l)).loc '{'
        loc := advanceLoc (compileLoop k pre (initComp l)).loc '{' } h3 rfl
  rw [hcm, if_pos rfl, hcl]
  have hloc : (compileLoop k pre (initComp l)).loc = List.foldl advanceLoc l pre :=
    compileLoop_loc k pre (initComp l)
  rw [hloc]
  simp [advanceLoc]

/-- Concrete instantiation of claim C4: `ab` followed by an unterminated
code block fails with the error at row 1, column 3, the opening brace's
position. -/
theorem claim_c4_witness :
    NewTemplateFromString wLoc (("ab").toList ++ '{' :: ('c' :: '\\' :: '}' :: [])) wCtx =
      .error (.unterminatedCodeBlock (List.foldl advanceLoc wLoc (("ab").toList))) :=
  claim_c4 wCtx wLoc (("ab").toList) ('c' :: '\\' :: '}' :: []) rfl rfl rfl

/-- Claim C5 fails on the code: compiling a code block whose opening brace
sits at row 1, column 1 stores row 1, column 2 — the position immediately
after the brace — in the resulting code portion, not the brace's own
position. -/
theorem claim_c5_counterexample :
    NewTemplateFromString wLoc ('{' :: ("var()").toList ++ ['}']) wCtx =
      .ok [.text [], .code ⟨wCtx, ⟨[], 1, 2⟩, ("var()").toList⟩]
    ∧ (⟨[], 1, 2⟩ : Location) ≠ wLoc :=
  ⟨rfl, by decide⟩

/-- Claim C5 as amended: the Location stored in a compiled code portion is
the position immediately AFTER the opening brace that began the block — same
row, column one greater than the brace's — and that stored location is what
evaluation errors later report (minus the one column the error path
subtracts). -/
theorem claim_c5_amended (k : TemplateContext) (l : Location) (pre code : List Char)
    (h1 : completesEscapes pre = true)
    (h2 : (compileLoop k pre (initComp l)).codeMode = false)
    (h3 : noSpecials code = true) :
    NewTemplateFromString l (pre ++ '{' :: (code ++ ['}'])) k =
      .ok ((compileLoop k pre (initComp l)).portions ++
        [.text (compileLoop k pre (initComp l)).acc,
          .code ⟨k, advanceLoc (compileLoop k pre (initComp l)).loc '{', code⟩])
    ∧ advanceLoc (compileLoop k pre (initComp l)).loc '{' =
      ⟨(compileLoop k pre (initComp l)).loc.path,
        (compileLoop k pre (initComp l)).loc.row,
        (compileLoop k pre (initComp l)).loc.column + 1⟩ := by
  constructor
  · unfold NewTemplateFromString
    rw [compileLoop_append k pre ('{' :: (code ++ ['}'])) (initComp l) h1]
    rw [compileLoop_char k '{' (code ++ ['}']) _ (by decide)]
    rw [if_pos (And.intro rfl h2)]
    rw [compileLoop_noSpecials k code ['}'] _ h3]
    simp [compileLoop]
  · simp [advanceLoc]

/-- Concrete instantiation of the amended claim C5: the code portion compiled
from the block opening at column 3 carries column 4. -/
theorem claim_c5_amended_witness :
    NewTemplateFromString wLoc (("ab").toList ++ '{' :: ("content()").toList ++ ['}']) wCtx =
      .ok [.text (("ab").toList), .code ⟨wCtx, ⟨[], 1, 4⟩, ("content()").toList⟩]
    ∧ advanceLoc (⟨[], 1, 3⟩ : Location) '{' = (⟨[], 1, 4⟩ : Location) :=
  claim_c5_amended wCtx wLoc (("ab").toList) (("content()").toList) rfl rfl rfl

/-- Claim C6: the compiler emits every escaped character literally — brace
and backslash included — dropping the escaping backslash, and a trailing
backslash is emitted literally itself. -/
theorem claim_c6 (k : TemplateContext) (l : Location) (s : List Char) (hs : s ≠ []) :
    NewTemplateFromString l (escapeEach s) k = .ok [.text s]
    ∧ NewTemplateFromString l (escapeEach s ++ ['\\']) k = .ok [.text (s ++ ['\\'])] := by
  constructor
  · unfold NewTemplateFromString
    have h := compileLoop_escapeEach k s [] (initComp l)
    rw [List.append_nil] at h
    rw [h]
    simp [compileLoop, initComp, hs]
  · unfold NewTemplateFromString
    rw [compileLoop_escapeEach k s ['\\'] (initComp l)]
    simp [compileLoop, initComp]

/-- Concrete instantiation of claim C6: escaping the two characters brace and
backslash yields exactly that two-character text, and likewise with one more
trailing backslash. -/
theorem claim_c6_witness :
    NewTemplateFromString wLoc (escapeEach ('{' :: '\\' :: [])) wCtx =
      .ok [.text ('{' :: '\\' :: [])]
    ∧ NewTemplateFromString wLoc (escapeEach ('{' :: '\\' :: []) ++ ['\\']) wCtx =
      .ok [.text ('{' :: '\\' :: '\\' :: [])] :=
  claim_c6 wCtx wLoc ('{' :: '\\' :: []) (by decide)

/-- Claim C7: a text with no unescaped opening brace compiles to at most one
text portion — exactly one, holding the input with escapes resolved, whenever
that resolution is non-empty — and rendering the compiled template returns
the input unchanged aside from escape resolution. -/
theorem claim_c7 (k : TemplateContext) (l : Location) (s : List Char)
    (fs : List Char → Option (List (List Char))) (pick : Nat)
    (ps : List TemplatePortion)
    (h : noCode s = true)
    (h2 : NewTemplateFromString l s k = .ok ps) :
    NewTemplateFromString l s k =
      .ok (if unescape s = [] then [] else [.text (unescape s)])
    ∧ Template.Render fs pick ⟨ps⟩ = .ok (unescape s)
    ∧ (unescape s ≠ [] → ps = [.text (unescape s)]) := by
  have hmain : NewTemplateFromString l s k =
      .ok (if unescape s = [] then [] else [.text (unescape s)]) := by
    unfold NewTemplateFromString
    rw [compileLoop_noCode k s (initComp l) h rfl]
    by_cases hu : unescape s = [] <;> simp [initComp, hu]
  have hps : ps = if unescape s = [] then [] else [.text (unescape s)] := by
    rw [h2] at hmain
    exact Except.ok.inj hmain
  refine ⟨hmain, ?_, ?_⟩
  · rw [hps]
    by_cases hu : unescape s = [] <;>
      simp [hu, Template.Render, RenderPortions, TemplatePortion.Render]
  · intro hu
    rw [hps, if_neg hu]

/-- Concrete instantiation of claim C7: the text `a\x5c\x7bb` — whose only
brace is escaped — compiles to the single text portion `a\x7bb` and renders
back to it. -/
theorem claim_c7_witness :
    NewTemplateFromString wLoc c7S wCtx = .ok [.text ('a' :: '{' :: 'b' :: [])]
    ∧ Template.Render wFsNone 0 (⟨[.text ('a' :: '{' :: 'b' :: [])]⟩ : Template) =
      .ok ('a' :: '{' :: 'b' :: [])
    ∧ (('a' :: '{' :: 'b' :: []) ≠ ([] : List Char) →
      [TemplatePortion.text ('a' :: '{' :: 'b' :: [])] =
        [TemplatePortion.text ('a' :: '{' :: 'b' :: [])]) := by
  have h := claim_c7 wCtx wLoc c7S wFsNone 0 [.text ('a' :: '{' :: 'b' :: [])] rfl rfl
  exact h

/-- Claim C10: escaping applies inside code mode too — a block written as an
opening brace, every code character escaped, then a closing brace compiles to
a code portion whose text is exactly the unescaped characters, so an escaped
closing brace or quote neither terminates the block nor keeps its
backslash. -/
theorem claim_c10 (k : TemplateContext) (l : Location) (s : List Char) :
    NewTemplateFromString l ('{' :: (escapeEach s ++ ['}'])) k =
      .ok [.text [], .code ⟨k, advanceLoc l '{', s⟩] := by
  unfold NewTemplateFromString
  rw [compileLoop_char k '{' (escapeEach s ++ ['}']) _ (by decide)]
  rw [if_pos (show '{' = '{' ∧ (initComp l).codeMode = false from And.intro rfl rfl)]
  rw [compileLoop_escapeEach k s ['}']]
  simp [compileLoop, initComp]

/-- Concrete instantiation of the amended claim C3: over entries `a.png` and
`b.txt` with `.txt` ignored, the single eligible entry `a.png` is always
chosen and rendered as `/static/img/a.png`. -/
theorem claim_c3_amended_witness :
    TemplateCodePortion.Render c3FsB 0 c3PB = .ok (("/static/img/a.png").toList) :=
  (claim_c3_amended c3FsB 0 c3PB
      ⟨.word, ("chooseRandomTopLevelFileFromStaticPath").toList, wLoc⟩
      ⟨("(\"img\",\".txt\")").toList, ⟨[], 1, 39⟩⟩
      [⟨.string, ("img").toList, ⟨[], 1, 40⟩⟩, ⟨.string, (".txt").toList, ⟨[], 1, 46⟩⟩]
      ⟨[], ⟨[], 1, 53⟩⟩
      ⟨.string, ("img").toList, ⟨[], 1, 40⟩⟩ ⟨.string, (".txt").toList, ⟨[], 1, 46⟩⟩
      ((".txt").toList) [("a.png").toList, ("b.txt").toList] (("a.png").toList)
      rfl rfl rfl rfl rfl
      (Or.inr ⟨rfl, rfl, rfl⟩)).2.2.2.2 rfl rfl (by decide)
      (by decide) (by decide) (by decide)

/-- The header/body split reassembles to the original input. -/
theorem splitHeaderLoop_append (cs : List Char) (st : ScanSt) :
    (splitHeaderLoop st cs).1 ++ (splitHeaderLoop st cs).2 = cs := by
  induction cs generalizing st with
  | nil => rfl
  | cons c rest ih =>
    rw [splitHeaderLoop]
    by_cases hb : scanBreak (scanStep st c) = true
    · rw [if_pos hb]
      rfl
    · rw [if_neg hb]
      dsimp only
      rw [List.cons_append, ih]

/-- No proper non-empty prefix of the header satisfies the scanner's terminal
condition: the header ends at the first position where it holds. -/
theorem splitHeaderLoop_min (cs : List Char) (st : ScanSt) (n : Nat) (h0 : 0 < n)
    (hn : n < (splitHeaderLoop st cs).1.length) :
    scanBreak (List.foldl scanStep st ((splitHeaderLoop st cs).1.take n)) = false := by
  induction cs generalizing st n with
  | nil => simp [splitHeaderLoop] at hn
  | cons c rest ih =>
    rw [splitHeaderLoop] at hn ⊢
    by_cases hb : scanBreak (scanStep st c) = true
    · rw [if_pos hb] at hn
      simp at hn
      omega
    · rw [if_neg hb] at hn ⊢
      dsimp only at hn ⊢
      rcases n with _ | m
      · omega
      · rw [List.take_succ_cons, List.foldl_cons]
        rcases Nat.eq_zero_or_pos m with hm | hm
        · subst hm
          simp only [List.take_zero, List.foldl_nil]
          simpa using hb
        · exact ih (scanStep st c) m hm (by simp at hn; omega)

/-- When the scan stops before the end of the input, the terminal condition
holds after the header. -/
theorem splitHeaderLoop_break2 (cs : List Char) (st : ScanSt)
    (h : (splitHeaderLoop st cs).2 ≠ []) :
    scanBreak (List.foldl scanStep st (splitHeaderLoop st cs).1) = true := by
  induction cs generalizing st with
  | nil => simp [splitHeaderLoop] at h
  | cons c rest ih =>
    rw [splitHeaderLoop] at h ⊢
    by_cases hb : scanBreak (scanStep st c) = true
    · rw [if_pos hb] at h ⊢
      simpa using hb
    · rw [if_neg hb] at h ⊢
      dsimp only at h ⊢
      rw [List.foldl_cons]
      exact ih (scanStep st c) h

/-- If the invariant of a started header holds (positive balance; the escape
flag only inside strings) and one scanner step reaches the terminal
condition, the consumed character is a closing brace. -/
theorem scanStep_break_close (s : ScanSt) (c : Char) (h1 : 1 ≤ s.balance)
    (h2 : s.escaped = true → s.inString = true)
    (hb : scanBreak (scanStep s c) = true) : c = '}' := by
  unfold scanStep scanBreak at hb
  split_ifs at hb with a b c1 c2 d e f
  all_goals simp_all
  all_goals omega

/-- The started-header invariant is preserved by scanner steps that do not
reach the terminal condition. -/
theorem scanStep_inv (s : ScanSt) (c : Char) (h1 : 1 ≤ s.balance)
    (h2 : s.escaped = true → s.inString = true)
    (hb : scanBreak (scanStep s c) = false) :
    1 ≤ (scanStep s c).balance ∧
      ((scanStep s c).escaped = true → (scanStep s c).inString = true) := by
  unfold scanStep at hb ⊢
  unfold scanBreak at hb
  split_ifs at hb ⊢ <;> simp_all <;> omega

/-- Under the started-header invariant, a header at whose end the terminal
condition holds ends with a closing brace. -/
theorem splitHeaderLoop_close (cs : List Char) (st : ScanSt)
    (h1 : 1 ≤ st.balance) (h2 : st.escaped = true → st.inString = true)
    (hb : scanBreak (List.foldl scanStep st (splitHeaderLoop st cs).1) = true) :
    (splitHeaderLoop st cs).1.getLast? = some '}' := by
  induction cs generalizing st with
  | nil =>
    exfalso
    simp [splitHeaderLoop, scanBreak] at hb
    omega
  | cons c rest ih =>
    rw [splitHeaderLoop] at hb ⊢
    by_cases hbc : scanBreak (scanStep st c) = true
    · rw [if_pos hbc] at hb ⊢
      have := scanStep_break_close st c h1 h2 hbc
      simp [this]
    · rw [if_neg hbc] at hb ⊢
      dsimp only at hb ⊢
      rw [List.foldl_cons] at hb
      obtain ⟨k1, k2⟩ := scanStep_inv st c h1 h2 (by simpa using hbc)
      have hrec := ih (scanStep st c) k1 k2 hb
      rcases hL : (splitHeaderLoop (scanStep st c) rest).1 with _ | ⟨d, tl⟩
      · rw [hL] at hrec
        simp at hrec
      · rw [hL] at hrec
        rw [List.getLast?_cons_cons]
        exact hrec

/-- Claim C8: the header/body split scans with the in-string/escape state
machine (escape transient for exactly one character and set only inside
strings; the brace balance changing only outside strings); the header is the
shortest non-empty prefix after which the balance is zero outside a string,
its final character is the header's closing brace, and everything after it is
the body. -/
theorem claim_c8 (cs : List Char) (n : Nat) (s : ScanSt) (c : Char)
    (h : cs.head? = some '{') :
    (splitHeader cs).1 ++ (splitHeader cs).2 = cs
    ∧ (0 < n → n < (splitHeader cs).1.length →
        scanBreak (List.foldl scanStep scanInit ((splitHeader cs).1.take n)) = false)
    ∧ ((splitHeader cs).2 ≠ [] →
        scanBreak (List.foldl scanStep scanInit (splitHeader cs).1) = true)
    ∧ (scanBreak (List.foldl scanStep scanInit (splitHeader cs).1) = true →
        (splitHeader cs).1.getLast? = some '}')
    ∧ (s.escaped = true → scanStep s c = { s with escaped := false })
    ∧ (s.escaped = true ∨ s.inString = true → (scanStep s c).balance = s.balance)
    ∧ ((scanStep s c).escaped = true → s.inString = true ∧ s.escaped = false ∧ c = '\\') := by
  refine ⟨splitHeaderLoop_append cs scanInit,
    fun h0 hn => splitHeaderLoop_min cs scanInit n h0 hn,
    fun hne => splitHeaderLoop_break2 cs scanInit hne, ?_, ?_, ?_, ?_⟩
  · intro hbend
    rcases cs with _ | ⟨c0, rest⟩
    · exact absurd h (by simp)
    · have hc0 : c0 = '{' := by simpa using h
      subst hc0
      unfold splitHeader at hbend ⊢
      rw [splitHeaderLoop] at hbend ⊢
      rw [if_neg (by decide)] at hbend ⊢
      dsimp only at hbend ⊢
      rw [List.foldl_cons] at hbend
      have hrec := splitHeaderLoop_close rest (scanStep scanInit '{')
        (by decide) (by decide) hbend
      rcases hL : (splitHeaderLoop (scanStep scanInit '{') rest).1 with _ | ⟨d, tl⟩
      · rw [hL] at hrec
        simp at hrec
      · rw [hL] at hrec
        rw [List.getLast?_cons_cons]
        exact hrec
  · intro he
    unfold scanStep
    rw [if_pos he]
  · intro hor
    unfold scanStep
    split_ifs <;> simp_all
  · intro he
    unfold scanStep at he
    split_ifs at he <;> simp_all

/-- Concrete instantiation of claim C8 on a header whose quoted value
contains a closing brace. -/
theorem claim_c8_witness :
    (splitHeader c8S).1 ++ (splitHeader c8S).2 = c8S
    ∧ (0 < 2 → 2 < (splitHeader c8S).1.length →
        scanBreak (List.foldl scanStep scanInit ((splitHeader c8S).1.take 2)) = false)
    ∧ ((splitHeader c8S).2 ≠ [] →
        scanBreak (List.foldl scanStep scanInit (splitHeader c8S).1) = true)
    ∧ (scanBreak (List.foldl scanStep scanInit (splitHeader c8S).1) = true →
        (splitHeader c8S).1.getLast? = some '}')
    ∧ ((⟨true, false, 3⟩ : ScanSt).escaped = true →
        scanStep ⟨true, false, 3⟩ 'q' = { (⟨true, false, 3⟩ : ScanSt) with escaped := false })
    ∧ ((⟨true, false, 3⟩ : ScanSt).escaped = true ∨ (⟨true, false, 3⟩ : ScanSt).inString = true →
        (scanStep ⟨true, false, 3⟩ 'q').balance = (⟨true, false, 3⟩ : ScanSt).balance)
    ∧ ((scanStep ⟨true, false, 3⟩ 'q').escaped = true →
        (⟨true, false, 3⟩ : ScanSt).inString = true ∧ (⟨true, false, 3⟩ : ScanSt).escaped = false ∧
          'q' = '\\') :=
  claim_c8 c8S 2 ⟨true, false, 3⟩ 'q' rfl

/-- One comment-stripper step outside strings at a plain character: the
character is copied. -/
theorem removeStep_normal (fuel : Nat) (c : Char) (rest : List Char)
    (hq : c ≠ '"') (hs : c ≠ '\\') (hsl : c ≠ '/') :
    removeCommentsLoop (fuel + 1) (c :: rest) false false =
      Except.map (fun x => c :: x) (removeCommentsLoop fuel rest false false) := by
  rw [removeCommentsLoop]
  rcases hres : removeCommentsLoop fuel rest false false with e | out <;>
    simp [hq, hs, hsl, hres, Except.map]

/-- One comment-stripper step inside a string at a character that is neither
a quote nor a backslash: the character is copied, even a slash. -/
theorem removeStep_inString (fuel : Nat) (c : Char) (rest : List Char)
    (hq : c ≠ '"') (hs : c ≠ '\\') :
    removeCommentsLoop (fuel + 1) (c :: rest) true false =
      Except.map (fun x => c :: x) (removeCommentsLoop fuel rest true false) := by
  rw [removeCommentsLoop]
  rcases hres : removeCommentsLoop fuel rest true false with e | out <;>
    simp [hq, hs, hres, Except.map]

/-- One comment-stripper step at an opening quote: string mode is entered and
the quote copied. -/
theorem removeStep_quoteT (fuel : Nat) (rest : List Char) :
    removeCommentsLoop (fuel + 1) ('"' :: rest) false false =
      Except.map (fun x => '"' :: x) (removeCommentsLoop fuel rest true false) := by
  rw [removeCommentsLoop]
  rcases hres : removeCommentsLoop fuel rest true false with e | out <;>
    simp [hres, Except.map]

/-- One comment-stripper step at a closing quote: string mode is left and the
quote copied. -/
theorem removeStep_quoteF (fuel : Nat) (rest : List Char) :
    removeCommentsLoop (fuel + 1) ('"' :: rest) true false =
      Except.map (fun x => '"' :: x) (removeCommentsLoop fuel rest false false) := by
  rw [removeCommentsLoop]
  rcases hres : removeCommentsLoop fuel rest false false with e | out <;>
    simp [hres, Except.map]

/-- Inside a string, a span without quotes and backslashes is copied
character for character. -/
theorem removeComments_inString (v : List Char) (fuel : Nat) (t r : List Char)
    (hv : ∀ x ∈ v, x ≠ '"' ∧ x ≠ '\\')
    (h : removeCommentsLoop fuel t true false = .ok r) :
    removeCommentsLoop (v.length + fuel) (v ++ t) true false = .ok (v ++ r) := by
  induction v with
  | nil => simpa using h
  | cons c v' ih =>
    have hc := hv c (List.mem_cons_self c v')
    rw [show (c :: v').length + fuel = (v'.length + fuel) + 1 by
      rw [List.length_cons]; omega]
    rw [List.cons_append]
    rw [removeStep_inString (v'.length + fuel) c (v' ++ t) hc.1 hc.2]
    rw [ih (fun x hx => hv x (List.mem_cons_of_mem c hx))]
    rfl

/-- Scanning the concrete ten-character header opening copies it and leaves
the stripper in string mode. -/
theorem removeComments_pre (fuel : Nat) (t r : List Char)
    (h : removeCommentsLoop fuel t true false = .ok r) :
    removeCommentsLoop (fuel + 10) (jsonPre ++ t) false false = .ok (jsonPre ++ r) := by
  show removeCommentsLoop (fuel + 10)
    ('{' :: '"' :: 't' :: 'i' :: 't' :: 'l' :: 'e' :: '"' :: ':' :: '"' :: t)
    false false = .ok
    ('{' :: '"' :: 't' :: 'i' :: 't' :: 'l' :: 'e' :: '"' :: ':' :: '"' :: r)
  rw [show fuel + 10 = (fuel + 9) + 1 by omega,
    removeStep_normal (fuel + 9) '{' _ (by decide) (by decide) (by decide)]
  rw [show fuel + 9 = (fuel + 8) + 1 by omega, removeStep_quoteT (fuel + 8)]
  rw [show fuel + 8 = (fuel + 7) + 1 by omega,
    removeStep_inString (fuel + 7) 't' _ (by decide) (by decide)]
  rw [show fuel + 7 = (fuel + 6) + 1 by omega,
    removeStep_inString (fuel + 6) 'i' _ (by decide) (by decide)]
  rw [show fuel + 6 = (fuel + 5) + 1 by omega,
    removeStep_inString (fuel + 5) 't' _ (by decide) (by decide)]
  rw [show fuel + 5 = (fuel + 4) + 1 by omega,
    removeStep_inString (fuel + 4) 'l' _ (by decide) (by decide)]
  rw [show fuel + 4 = (fuel + 3) + 1 by omega,
    removeStep_inString (fuel + 3) 'e' _ (by decide) (by decide)]
  rw [show fuel + 3 = (fuel + 2) + 1 by omega, removeStep_quoteF (fuel + 2)]
  rw [show fuel + 2 = (fuel + 1) + 1 by omega,
    removeStep_normal (fuel + 1) ':' _ (by decide) (by decide) (by decide)]
  rw [show fuel + 1 = fuel + 0 + 1 by omega, removeStep_quoteT (fuel + 0)]
  rw [show fuel + 0 = fuel by omega, h]
  rfl

/-- Claim C9: comment stripping preserves every character of a quoted string
span — in particular a double slash inside a string value survives verbatim,
so the whole example header is returned unchanged for the JSON parser — while
a line comment and a closed block comment outside strings are removed, and an
unclosed block comment makes stripping fail. -/
theorem claim_c9 (v : List Char) (hv : ∀ x ∈ v, x ≠ '"' ∧ x ≠ '\\') :
    removeCommentsFromJson (jsonPre ++ v ++ jsonPost) = .ok (jsonPre ++ v ++ jsonPost)
    ∧ removeCommentsFromJson (("\x7b\x7d// c").toList) = .ok (("\x7b\x7d").toList)
    ∧ removeCommentsFromJson (("\x7b/*x*/\x7d").toList) = .ok (("\x7b\x7d").toList)
    ∧ removeCommentsFromJson (("\x7b/*x").toList) = .error .unclosedComment := by
  refine ⟨?_, rfl, rfl, rfl⟩
  unfold removeCommentsFromJson
  have hlen : (jsonPre ++ v ++ jsonPost).length + 1 = (v.length + 3) + 10 := by
    simp [jsonPre, jsonPost]
  rw [hlen]
  rw [show jsonPre ++ v ++ jsonPost = jsonPre ++ (v ++ jsonPost) from
    List.append_assoc jsonPre v jsonPost]
  rw [removeComments_pre (v.length + 3) (v ++ jsonPost) (v ++ jsonPost)
    (removeComments_inString v 3 jsonPost jsonPost hv rfl)]

/-- Concrete instantiation of claim C9 at the example title value containing
a double slash. -/
theorem claim_c9_witness :
    removeCommentsFromJson
        (jsonPre ++ ("//not a comment inside string").toList ++ jsonPost) =
      .ok (jsonPre ++ ("//not a comment inside string").toList ++ jsonPost)
    ∧ removeCommentsFromJson (("\x7b\x7d// c").toList) = .ok (("\x7b\x7d").toList)
    ∧ removeCommentsFromJson (("\x7b/*x*/\x7d").toList) = .ok (("\x7b\x7d").toList)
    ∧ removeCommentsFromJson (("\x7b/*x").toList) = .error .unclosedComment :=
  claim_c9 (("//not a comment inside string").toList) (by decide)

end Backend
